import Mathlib

/-!
A shallow embedding of the streaming note render pass of the `wasabi` MIDI
renderer (`src/gui/window/scene/note_list_system/notes_render_pass.rs`),
together with theorems about its pagination loop, double buffering,
synchronization protocol, pass descriptors and vertex packing.

Modelling conventions: `f32` values that are only stored and forwarded are
modelled as rationals; machine integers are natural numbers with explicit
`% 2 ^ 32` where Rust wraps; the GPU side is abstracted to the observable
content of each recorded pass (`PassRecord`); the unbounded `while` loop is
given explicit fuel, with a dedicated out-of-fuel outcome.
-/

set_option maxHeartbeats 1000000
set_option maxRecDepth 100000

/-- Element capacity of each of the two vertex buffers
(`const NOTE_BUFFER_SIZE: u64 = 25000000`). -/
def NOTE_BUFFER_SIZE : Nat := 25000000

/-- One primitive record (`struct NoteVertex`). The two floats are modelled as
rationals and the packed `key_color: u32` as a natural number below `2 ^ 32`. -/
structure NoteVertex where
  start_length : ℚ × ℚ
  key_color : Nat
deriving DecidableEq

/-- `NoteVertex::new`: `key_color = key as u32 | (color << 8)`.  The `u32`
shift keeps only the low 32 bits of `color * 2 ^ 8`. -/
def NoteVertex.new (start len : ℚ) (key color : Nat) : NoteVertex :=
  { start_length := (start, len)
    key_color := key ||| color * 2 ^ 8 % 2 ^ 32 }

/-- One device vertex buffer, abstracted to its allocation offset and element
capacity (`Subbuffer<[NoteVertex]>`). -/
structure Buf where
  offset : Nat
  len : Nat
deriving DecidableEq

/-- `get_buffer`: one allocation of `NOTE_BUFFER_SIZE * 2` elements, split at
`NOTE_BUFFER_SIZE` into two disjoint halves. -/
def get_buffer : Buf × Buf :=
  ({ offset := 0, len := NOTE_BUFFER_SIZE },
   { offset := NOTE_BUFFER_SIZE, len := NOTE_BUFFER_SIZE })

/-- `struct BufferSet { vertex_buffers: [Subbuffer<[NoteVertex]>; 2], index: usize }`.
The fixed-size array is modelled as a list; every value the code constructs
has exactly two entries. -/
structure BufferSet where
  vertexBuffers : List Buf
  index : Nat
deriving DecidableEq

/-- `BufferSet::new`. -/
def BufferSet.new : BufferSet :=
  { vertexBuffers := [get_buffer.1, get_buffer.2], index := 0 }

/-- `BufferSet::next`: advance `index = (index + 1) % vertex_buffers.len()` and
return the buffer now at `index`.  The second component is the index of the
returned buffer. -/
def BufferSet.next (bs : BufferSet) : BufferSet × Nat :=
  ({ bs with index := (bs.index + 1) % bs.vertexBuffers.length },
    (bs.index + 1) % bs.vertexBuffers.length)

/-- Invariant of every buffer set the code constructs: exactly two buffers,
both of element capacity `C` (with `C` small enough that the source's
`buffer.len() as u32` is exact), and the alternation index in range. -/
def BufferSet.uniform (bs : BufferSet) (C : Nat) : Prop :=
  bs.vertexBuffers.length = 2 ∧ (∀ b ∈ bs.vertexBuffers, b.len = C) ∧
    bs.index < 2 ∧ C < 2 ^ 32

instance (bs : BufferSet) (C : Nat) : Decidable (bs.uniform C) :=
  inferInstanceAs (Decidable (bs.vertexBuffers.length = 2 ∧
    (∀ b ∈ bs.vertexBuffers, b.len = C) ∧ bs.index < 2 ∧ C < 2 ^ 32))

/-- `enum NotePassStatus`. -/
inductive NotePassStatus where
  | Finished (remaining : Nat)
  | HasMoreNotes
deriving DecidableEq

/-- `struct KeyPosition { left: f32, right: f32, _padding: [u8; 8] }`. -/
structure KeyPosition where
  left : ℚ
  right : ℚ
  padding : List Nat
deriving DecidableEq

/-- One `{left, right}` extent yielded by `KeyboardView::iter_all_notes` (the
keyboard geometry provider, which lives outside this module). -/
structure KeyExtent where
  left : ℚ
  right : ℚ
deriving DecidableEq

/-- Attachment formats: `renderer.format` is the surface-dependent color
format, abstracted by an identifier; the depth format is the fixed
`Format::D16_UNORM`. -/
inductive Format where
  | D16_UNORM
  | surface (id : Nat)
deriving DecidableEq

/-- Vulkan attachment load operations. -/
inductive LoadOp where
  | Load
  | Clear
  | DontCare
deriving DecidableEq

/-- Vulkan attachment store operations. -/
inductive StoreOp where
  | Store
  | DontCare
deriving DecidableEq

/-- Vulkan semantics of a load op: only `Load` guarantees the attachment's
prior contents are preserved into the pass; `Clear` resets them, and
`DontCare` lets the implementation discard them (contents become undefined). -/
def LoadOp.preservesPriorContents : LoadOp → Bool
  | .Load => true
  | .Clear => false
  | .DontCare => false

/-- One attachment of an `ordered_passes_renderpass!` descriptor. -/
structure AttachmentDesc where
  load : LoadOp
  store : StoreOp
  format : Format
  samples : Nat
deriving DecidableEq

/-- A render pass descriptor with the module's two attachments. -/
structure RenderPassDesc where
  final_color : AttachmentDesc
  depth : AttachmentDesc
deriving DecidableEq

/-- `render_pass_clear`: both attachments `load: Clear, store: Store`. -/
def render_pass_clear (rendererFormat : Format) : RenderPassDesc :=
  { final_color := { load := .Clear, store := .Store, format := rendererFormat, samples := 1 }
    depth := { load := .Clear, store := .Store, format := .D16_UNORM, samples := 1 } }

/-- `render_pass_draw_over`: both attachments `load: DontCare, store: Store`. -/
def render_pass_draw_over (rendererFormat : Format) : RenderPassDesc :=
  { final_color := { load := .DontCare, store := .Store, format := rendererFormat, samples := 1 }
    depth := { load := .DontCare, store := .Store, format := .D16_UNORM, samples := 1 } }

/-- A clear value passed to `begin_render_pass`. -/
inductive ClearValue where
  | color (r g b a : ℚ)
  | depth (d : ℚ)
deriving DecidableEq

/-- The mutable state of `struct NoteRenderPass` that `draw` reads or writes:
the double buffer pool, the depth attachment's dimensions, and the contents of
`key_locations[0]` (a 256-entry array).  Device handles, pipelines and
allocators are created once at construction and never change. -/
structure NoteRenderPass where
  buffer_set : BufferSet
  depth_buffer : Nat × Nat
  key_locations : List KeyPosition
deriving DecidableEq

/-- `NoteRenderPass::new`: fresh buffer set, a 1×1 depth attachment, and a
zero-initialized key table (`[[Default::default(); 256]]`). -/
def NoteRenderPass.new : NoteRenderPass :=
  { buffer_set := BufferSet.new
    depth_buffer := (1, 1)
    key_locations :=
      List.replicate 256 { left := 0, right := 0, padding := List.replicate 8 0 } }

/-- The per-frame key-table refresh:
`for (write, key) in keys[0].iter_mut().zip(key_view.iter_all_notes())`.
Entries are overwritten in key-id order, stopping at the shorter of the table
and the provider's sequence; `_padding` is reset to zeroes. -/
def overwriteKeyTable : List KeyPosition → List KeyExtent → List KeyPosition
  | [], _ => []
  | olds, [] => olds
  | _ :: olds, k :: ks =>
    { left := k.left, right := k.right, padding := List.replicate 8 0 } ::
      overwriteKeyTable olds ks

/-- Observable content of the render pass recorded and submitted by one
iteration of the pagination loop in `NoteRenderPass::draw`. -/
structure PassRecord where
  submissionId : Nat
  bufferIndex : Nat
  status : NotePassStatus
  itemsToRender : Nat
  usesClearPipeline : Bool
  renderPass : RenderPassDesc
  clearValues : List (Option ClearValue)
  keyTableSnapshot : List KeyPosition
  depthDims : Nat × Nat
  imgDims : Nat × Nat
  viewRange : ℚ
  waitedBeforeSubmit : Option Nat
deriving DecidableEq

/-- Lines 287–385 of the source, for one loop iteration: pick pipeline, pass
descriptor and clear values by `first_pass`, bind the key table and the
just-filled buffer, record which earlier submission was waited on before this
one was handed to the queue. -/
def mkPassRecord (i bufIdx : Nat) (status : NotePassStatus) (items : Nat)
    (firstPass : Bool) (prevFuture : Option Nat) (kt : List KeyPosition)
    (dd idim : Nat × Nat) (vr : ℚ) (fmt : Format) : PassRecord :=
  { submissionId := i
    bufferIndex := bufIdx
    status := status
    itemsToRender := items
    usesClearPipeline := firstPass
    renderPass := if firstPass then render_pass_clear fmt else render_pass_draw_over fmt
    clearValues :=
      if firstPass then [some (ClearValue.color 0 0 0 0), some (ClearValue.depth 1)]
      else [none, none]
    keyTableSnapshot := kt
    depthDims := dd
    imgDims := idim
    viewRange := vr
    waitedBeforeSubmit := prevFuture }

/-- Default pass record used with `List.getD`. -/
def dummyPass : PassRecord :=
  mkPassRecord 0 0 NotePassStatus.HasMoreNotes 0 false none [] (0, 0) (0, 0) 0 Format.D16_UNORM

/-- `match prev_future.wait(None) { Ok(x) => x, Err(err) => println!(..) }`:
the only observable effect of a failed wait is the log line.  `waitOk s` says
whether waiting on submission `s` reports success. -/
def waitLogs (waitOk : Nat → Bool) (prevFuture : Option Nat) : List Nat :=
  match prevFuture with
  | none => []
  | some p => if waitOk p then [] else [p]

/-- `items_to_render` as a function of the producer status and the capacity of
the buffer that was just filled. -/
def itemsFor (status : NotePassStatus) (cap : Nat) : Nat :=
  match status with
  | .Finished remaining => remaining
  | .HasMoreNotes => cap

/-- Accumulated result of the pagination loop. -/
structure LoopResult where
  passes : List PassRecord
  finalBufs : BufferSet
  drain : Option Nat
  logs : List Nat
deriving DecidableEq

/-- Outcome of running the pagination loop with bounded fuel. -/
inductive LoopOut where
  | outOfFuel
  | panicked (iteration remaining cap : Nat)
  | ok (r : LoopResult)
deriving DecidableEq

/-- The pagination loop of `NoteRenderPass::draw` (lines 274–386).  Each
iteration takes the next buffer from the pool, invokes the producer, computes
`items_to_render` (with the `assert!(remaining <= buffer.len())` modelled as
the `panicked` outcome), records one pass, waits on the previous iteration's
future, and submits; the loop repeats while the status is `HasMoreNotes`.
`i` counts iterations and doubles as the submission identifier. -/
def drawLoop (fill : Nat → NotePassStatus) (waitOk : Nat → Bool)
    (kt : List KeyPosition) (dd idim : Nat × Nat) (vr : ℚ) (fmt : Format) :
    Nat → BufferSet → Nat → Bool → Option Nat → LoopOut
  | 0, _, _, _, _ => LoopOut.outOfFuel
  | fuel + 1, bs, i, firstPass, prevFuture =>
    match fill i with
    | NotePassStatus.Finished remaining =>
      if remaining ≤ ((bs.next.1.vertexBuffers.getD bs.next.2 { offset := 0, len := 0 }).len) then
        LoopOut.ok
          { passes := [mkPassRecord i bs.next.2 (NotePassStatus.Finished remaining) remaining
              firstPass prevFuture kt dd idim vr fmt]
            finalBufs := bs.next.1
            drain := some i
            logs := waitLogs waitOk prevFuture }
      else
        LoopOut.panicked i remaining
          ((bs.next.1.vertexBuffers.getD bs.next.2 { offset := 0, len := 0 }).len)
    | NotePassStatus.HasMoreNotes =>
      match drawLoop fill waitOk kt dd idim vr fmt fuel bs.next.1 (i + 1) false (some i) with
      | LoopOut.outOfFuel => LoopOut.outOfFuel
      | LoopOut.panicked a b c => LoopOut.panicked a b c
      | LoopOut.ok r =>
        LoopOut.ok
          { passes := mkPassRecord i bs.next.2 NotePassStatus.HasMoreNotes
              ((bs.next.1.vertexBuffers.getD bs.next.2 { offset := 0, len := 0 }).len)
              firstPass prevFuture kt dd idim vr fmt :: r.passes
            finalBufs := r.finalBufs
            drain := r.drain
            logs := waitLogs waitOk prevFuture ++ r.logs }

/-- Result data of a completed `NoteRenderPass::draw` call. -/
structure DrawOk where
  passes : List PassRecord
  drainWaited : Option Nat
  logs : List Nat
  depthRecreated : Bool
  finalState : NoteRenderPass
deriving DecidableEq

/-- Outcome of a `NoteRenderPass::draw` call. -/
inductive DrawOut where
  | outOfFuel
  | panicked (iteration remaining cap : Nat)
  | ok (r : DrawOk)
deriving DecidableEq

/-- `NoteRenderPass::draw`.  `final_image` is the output image's
`width_height`, `key_view` the keyboard geometry provider's extents,
`fill_buffer` the producer indexed by pagination-loop iteration, `waitOk`
resolves each completion wait, and `fuel` bounds the number of loop
iterations (the Rust loop is unbounded; `DrawOut.outOfFuel` marks traces
longer than `fuel`).  Before the loop: recreate the depth attachment at the
image's dimensions when they differ from the stored ones, then overwrite the
key table.  After the loop: wait on the remaining in-flight future. -/
def NoteRenderPass.draw (self : NoteRenderPass) (fuel : Nat) (final_image : Nat × Nat)
    (key_view : List KeyExtent) (view_range : ℚ) (fill_buffer : Nat → NotePassStatus)
    (waitOk : Nat → Bool) (fmt : Format) : DrawOut :=
  match drawLoop fill_buffer waitOk (overwriteKeyTable self.key_locations key_view)
      (if self.depth_buffer = final_image then self.depth_buffer else final_image)
      final_image view_range fmt fuel self.buffer_set 0 true none with
  | LoopOut.outOfFuel => DrawOut.outOfFuel
  | LoopOut.panicked a b c => DrawOut.panicked a b c
  | LoopOut.ok r =>
    DrawOut.ok
      { passes := r.passes
        drainWaited := r.drain
        logs := r.logs ++ waitLogs waitOk r.drain
        depthRecreated := if self.depth_buffer = final_image then false else true
        finalState :=
          { buffer_set := r.finalBufs
            depth_buffer := if self.depth_buffer = final_image then self.depth_buffer else final_image
            key_locations := overwriteKeyTable self.key_locations key_view } }

/-- Whether a draw call completed normally. -/
def DrawOut.isOk : DrawOut → Bool
  | .ok _ => true
  | _ => false

/-- The recorded passes of a completed draw call (empty otherwise). -/
def DrawOut.passesOf : DrawOut → List PassRecord
  | .ok r => r.passes
  | _ => []

/-- The submission waited on by the final drain (none otherwise). -/
def DrawOut.drainOf : DrawOut → Option Nat
  | .ok r => r.drainWaited
  | _ => none

/-- The wait-failure log of a completed draw call. -/
def DrawOut.logsOf : DrawOut → List Nat
  | .ok r => r.logs
  | _ => []

/-- Whether the depth attachment was recreated at the start of the call. -/
def DrawOut.recreatedOf : DrawOut → Bool
  | .ok r => r.depthRecreated
  | _ => false

/-- The `NoteRenderPass` state after a completed draw call. -/
def DrawOut.finalStateOf : DrawOut → NoteRenderPass
  | .ok r => r.finalState
  | _ => NoteRenderPass.new

/-- Erase the wait-failure log, keeping every other observable. -/
def DrawOut.strip : DrawOut → DrawOut
  | .ok r => .ok { r with logs := [] }
  | x => x

/-- Erase the wait-failure log of a loop outcome. -/
def LoopOut.strip : LoopOut → LoopOut
  | .ok r => .ok { r with logs := [] }
  | x => x

/-- Modelled from the spec (§6 producer contract, which the concrete
note-stream producers outside this module implement): for a primitive stream
of exactly `N` records and buffer capacity `C`, the call after `i` completed
full batches has `N - i * C` records left, writes `min C (N - i * C)` of
them, and returns `HasMoreNotes` exactly when records remain beyond this
call, otherwise `Finished` with the count it wrote. -/
def contractProducer (N C : Nat) (i : Nat) : NotePassStatus :=
  if C < N - i * C then NotePassStatus.HasMoreNotes
  else NotePassStatus.Finished (N - i * C)

/-! ### Buffer pool helpers -/

theorem BufferSet.next_vertexBuffers (bs : BufferSet) :
    bs.next.1.vertexBuffers = bs.vertexBuffers := rfl

theorem BufferSet.next_index_eq (bs : BufferSet) :
    bs.next.1.index = bs.next.2 := rfl

theorem BufferSet.uniform_next {bs : BufferSet} {C : Nat} (h : bs.uniform C) :
    bs.next.1.uniform C ∧ bs.next.2 = (bs.index + 1) % 2 := by
  obtain ⟨hlen, hall, hidx, hC⟩ := h
  refine ⟨⟨hlen, hall, ?_, hC⟩, ?_⟩
  · show (bs.index + 1) % bs.vertexBuffers.length < 2
    rw [hlen]; omega
  · show (bs.index + 1) % bs.vertexBuffers.length = (bs.index + 1) % 2
    rw [hlen]

theorem BufferSet.uniform_buffer_len {bs : BufferSet} {C : Nat} (h : bs.uniform C) :
    (bs.next.1.vertexBuffers.getD bs.next.2 { offset := 0, len := 0 }).len = C := by
  obtain ⟨hlen, hall, hidx, hC⟩ := h
  have h2 : bs.next.2 < bs.next.1.vertexBuffers.length := by
    show (bs.index + 1) % bs.vertexBuffers.length < bs.vertexBuffers.length
    rw [hlen]; omega
  rw [List.getD_eq_getElem _ _ h2]
  exact hall _ (List.getElem_mem h2)

/-! ### Structure of a completed pagination loop -/

/-- Pool-independent structure of a completed pagination loop: at least one
pass is recorded, the drain waits on the last submission, and each pass's
submission id, producer status, bound resources, pipeline selection and
pre-submit wait are determined by the iteration counter and the
`first_pass` flag. -/
theorem drawLoop_fields {fill : Nat → NotePassStatus} {waitOk : Nat → Bool}
    {kt : List KeyPosition} {dd idim : Nat × Nat} {vr : ℚ} {fmt : Format} :
    ∀ (fuel : Nat) (bs : BufferSet) (i : Nat) (firstPass : Bool) (prev : Option Nat)
      (r : LoopResult),
      drawLoop fill waitOk kt dd idim vr fmt fuel bs i firstPass prev = LoopOut.ok r →
      0 < r.passes.length ∧
      r.drain = some (i + (r.passes.length - 1)) ∧
      ∀ j, j < r.passes.length →
        (r.passes.getD j dummyPass).submissionId = i + j ∧
        (r.passes.getD j dummyPass).status = fill (i + j) ∧
        (r.passes.getD j dummyPass).keyTableSnapshot = kt ∧
        (r.passes.getD j dummyPass).depthDims = dd ∧
        (r.passes.getD j dummyPass).imgDims = idim ∧
        (r.passes.getD j dummyPass).viewRange = vr ∧
        (r.passes.getD j dummyPass).waitedBeforeSubmit
          = (if j = 0 then prev else some (i + j - 1)) ∧
        (r.passes.getD j dummyPass).usesClearPipeline = (firstPass && j == 0) ∧
        (r.passes.getD j dummyPass).renderPass
          = (if (firstPass && j == 0) = true then render_pass_clear fmt
             else render_pass_draw_over fmt) ∧
        (r.passes.getD j dummyPass).clearValues
          = (if (firstPass && j == 0) = true
             then [some (ClearValue.color 0 0 0 0), some (ClearValue.depth 1)]
             else [none, none]) := by
  intro fuel
  induction fuel with
  | zero =>
    intro bs i firstPass prev r h
    simp [drawLoop] at h
  | succ fuel ih =>
    intro bs i firstPass prev r h
    rw [drawLoop] at h
    cases hfi : fill i with
    | Finished remaining =>
      rw [hfi] at h
      simp only at h
      split at h
      case isTrue hle =>
        rw [LoopOut.ok.injEq] at h
        subst h
        refine ⟨by simp, by simp, ?_⟩
        intro j hj
        have hj0 : j = 0 := by simpa using hj
        subst hj0
        simp [mkPassRecord, hfi]
      case isFalse hle =>
        simp at h
    | HasMoreNotes =>
      rw [hfi] at h
      simp only at h
      cases hrec : drawLoop fill waitOk kt dd idim vr fmt fuel bs.next.1 (i + 1) false (some i) with
      | outOfFuel => rw [hrec] at h; simp at h
      | panicked a b c => rw [hrec] at h; simp at h
      | ok r' =>
        rw [hrec] at h
        simp only at h
        rw [LoopOut.ok.injEq] at h
        subst h
        obtain ⟨hpos, hdrain, hj⟩ := ih bs.next.1 (i + 1) false (some i) r' hrec
        refine ⟨by simp, ?_, ?_⟩
        · show r'.drain = _
          rw [hdrain]
          congr 1
          simp only [List.length_cons]
          omega
        · intro j hjlt
          rcases j with _ | j'
          · simp only [List.getD_cons_zero]
            simp [mkPassRecord, hfi]
          · simp only [List.getD_cons_succ]
            have hj' : j' < r'.passes.length := by
              simp only [List.length_cons] at hjlt
              omega
            obtain ⟨h1, h2, h3, h4, h5, h6, h7, h8, h9, h10⟩ := hj j' hj'
            have hidx : i + 1 + j' = i + (j' + 1) := by omega
            refine ⟨?_, ?_, h3, h4, h5, h6, ?_, ?_, ?_, ?_⟩
            · rw [h1]; omega
            · rw [h2, hidx]
            · rw [h7]
              rcases j' with _ | k
              · simp
              · simp only [if_neg (Nat.succ_ne_zero _), Option.some.injEq]
                omega
            · rw [h8]; simp
            · rw [h9]; simp
            · rw [h10]; simp

/-- Pool-dependent structure of a completed pagination loop, under the
two-buffer invariant: the bound buffer alternates, `items_to_render` follows
`itemsFor`, every pass but the last saw `HasMoreNotes`, the last saw
`Finished remaining` with `remaining ≤ C`, and the pool leaves with the same
two buffers and an index advanced by the number of passes. -/
theorem drawLoop_buf {fill : Nat → NotePassStatus} {waitOk : Nat → Bool}
    {kt : List KeyPosition} {dd idim : Nat × Nat} {vr : ℚ} {fmt : Format} {C : Nat} :
    ∀ (fuel : Nat) (bs : BufferSet) (i : Nat) (firstPass : Bool) (prev : Option Nat)
      (r : LoopResult),
      bs.uniform C →
      drawLoop fill waitOk kt dd idim vr fmt fuel bs i firstPass prev = LoopOut.ok r →
      (∀ j, j < r.passes.length →
        (r.passes.getD j dummyPass).bufferIndex = (bs.index + 1 + j) % 2 ∧
        (r.passes.getD j dummyPass).itemsToRender = itemsFor (fill (i + j)) C ∧
        (j + 1 < r.passes.length → fill (i + j) = NotePassStatus.HasMoreNotes)) ∧
      (∃ rm, fill (i + (r.passes.length - 1)) = NotePassStatus.Finished rm ∧ rm ≤ C) ∧
      r.finalBufs.vertexBuffers = bs.vertexBuffers ∧
      r.finalBufs.index = (bs.index + r.passes.length) % 2 := by
  intro fuel
  induction fuel with
  | zero =>
    intro bs i firstPass prev r hbs h
    simp [drawLoop] at h
  | succ fuel ih =>
    intro bs i firstPass prev r hbs h
    have hblen := BufferSet.uniform_buffer_len hbs
    obtain ⟨hbs1, hn2⟩ := BufferSet.uniform_next hbs
    rw [drawLoop] at h
    cases hfi : fill i with
    | Finished remaining =>
      rw [hfi] at h
      simp only at h
      split at h
      case isTrue hle =>
        rw [LoopOut.ok.injEq] at h
        subst h
        rw [hblen] at hle
        refine ⟨?_, ?_, ?_, ?_⟩
        · intro j hj
          have hj0 : j = 0 := by simpa using hj
          subst hj0
          refine ⟨?_, ?_, ?_⟩
          · simp [mkPassRecord, hn2]
          · simp [mkPassRecord, hfi, itemsFor]
          · intro hcontra; simp at hcontra
        · refine ⟨remaining, ?_, hle⟩
          simpa using hfi
        · simp [BufferSet.next_vertexBuffers]
        · show bs.next.1.index = _
          rw [BufferSet.next_index_eq, hn2]
          simp only [List.length_cons, List.length_nil]
      case isFalse hle =>
        simp at h
    | HasMoreNotes =>
      rw [hfi] at h
      simp only at h
      cases hrec : drawLoop fill waitOk kt dd idim vr fmt fuel bs.next.1 (i + 1) false (some i) with
      | outOfFuel => rw [hrec] at h; simp at h
      | panicked a b c => rw [hrec] at h; simp at h
      | ok r' =>
        rw [hrec] at h
        simp only at h
        rw [LoopOut.ok.injEq] at h
        subst h
        obtain ⟨hjb, hlast, hvb, hfin⟩ := ih bs.next.1 (i + 1) false (some i) r' hbs1 hrec
        obtain ⟨hlen1, -, -⟩ := drawLoop_fields fuel bs.next.1 (i + 1) false (some i) r' hrec
        have hni : bs.next.1.index = (bs.index + 1) % 2 := by
          rw [BufferSet.next_index_eq, hn2]
        refine ⟨?_, ?_, ?_, ?_⟩
        · intro j hjlt
          rcases j with _ | j'
          · refine ⟨?_, ?_, fun _ => hfi⟩
            · simp [mkPassRecord, hn2]
            · simp only [List.getD_cons_zero, Nat.add_zero, hfi, itemsFor, mkPassRecord]
              exact hblen
          · simp only [List.getD_cons_succ]
            have hj' : j' < r'.passes.length := by
              simp only [List.length_cons] at hjlt
              omega
            obtain ⟨hb1, hb2, hb3⟩ := hjb j' hj'
            have hidx : i + 1 + j' = i + (j' + 1) := by omega
            refine ⟨?_, ?_, ?_⟩
            · rw [hb1, hni]; omega
            · rw [hb2, hidx]
            · intro hlt
              rw [← hidx]
              apply hb3
              simp only [List.length_cons] at hlt
              omega
        · obtain ⟨rm, hrm, hrmle⟩ := hlast
          refine ⟨rm, ?_, hrmle⟩
          rw [← hrm]
          congr 1
          simp only [List.length_cons]
          omega
        · rw [hvb, BufferSet.next_vertexBuffers]
        · rw [hfin, hni]
          simp only [List.length_cons]
          omega

/-- The wait-failure log of a completed pagination loop: the entry wait (on
`prev`) followed by the failed waits among submissions `i, …, i + passes - 2`
(each iteration after the first waits on the submission directly before it). -/
theorem drawLoop_logs {fill : Nat → NotePassStatus} {waitOk : Nat → Bool}
    {kt : List KeyPosition} {dd idim : Nat × Nat} {vr : ℚ} {fmt : Format} :
    ∀ (fuel : Nat) (bs : BufferSet) (i : Nat) (firstPass : Bool) (prev : Option Nat)
      (r : LoopResult),
      drawLoop fill waitOk kt dd idim vr fmt fuel bs i firstPass prev = LoopOut.ok r →
      r.logs = waitLogs waitOk prev ++
        ((List.range' i (r.passes.length - 1)).filter fun s => ! waitOk s) := by
  intro fuel
  induction fuel with
  | zero => intro bs i firstPass prev r h; simp [drawLoop] at h
  | succ fuel ih =>
    intro bs i firstPass prev r h
    rw [drawLoop] at h
    cases hfi : fill i with
    | Finished remaining =>
      rw [hfi] at h
      simp only at h
      split at h
      case isTrue hle =>
        rw [LoopOut.ok.injEq] at h
        subst h
        simp
      case isFalse hle => simp at h
    | HasMoreNotes =>
      rw [hfi] at h
      simp only at h
      cases hrec : drawLoop fill waitOk kt dd idim vr fmt fuel bs.next.1 (i + 1) false (some i) with
      | outOfFuel => rw [hrec] at h; simp at h
      | panicked a b c => rw [hrec] at h; simp at h
      | ok r' =>
        rw [hrec] at h
        simp only at h
        rw [LoopOut.ok.injEq] at h
        subst h
        obtain ⟨hlen1, -, -⟩ := drawLoop_fields fuel bs.next.1 (i + 1) false (some i) r' hrec
        have hIH := ih bs.next.1 (i + 1) false (some i) r' hrec
        show waitLogs waitOk prev ++ r'.logs = waitLogs waitOk prev ++ _
        simp only [List.length_cons, Nat.add_sub_cancel]
        rw [hIH]
        have h1 : List.range' i r'.passes.length
            = i :: List.range' (i + 1) (r'.passes.length - 1) := by
          conv_lhs => rw [show r'.passes.length = (r'.passes.length - 1) + 1 from by omega]
          exact List.range'_succ i (r'.passes.length - 1) 1
        rw [h1, List.filter_cons]
        cases hw : waitOk i <;> simp [waitLogs, hw]

/-- The pagination loop never branches on the result of a completion wait:
erasing the log, its outcome is the same under any two wait oracles. -/
theorem drawLoop_strip {fill : Nat → NotePassStatus} {o1 o2 : Nat → Bool}
    {kt : List KeyPosition} {dd idim : Nat × Nat} {vr : ℚ} {fmt : Format} :
    ∀ (fuel : Nat) (bs : BufferSet) (i : Nat) (firstPass : Bool) (prev : Option Nat),
      (drawLoop fill o1 kt dd idim vr fmt fuel bs i firstPass prev).strip
        = (drawLoop fill o2 kt dd idim vr fmt fuel bs i firstPass prev).strip := by
  intro fuel
  induction fuel with
  | zero => intro bs i firstPass prev; rfl
  | succ fuel ih =>
    intro bs i firstPass prev
    rw [drawLoop, drawLoop]
    cases hfi : fill i with
    | Finished remaining =>
      simp only
      by_cases hle : remaining ≤ (bs.next.1.vertexBuffers.getD bs.next.2 { offset := 0, len := 0 }).len
      · rw [if_pos hle, if_pos hle]
        rfl
      · rw [if_neg hle, if_neg hle]
    | HasMoreNotes =>
      simp only
      have hIH := ih bs.next.1 (i + 1) false (some i)
      cases h1 : drawLoop fill o1 kt dd idim vr fmt fuel bs.next.1 (i + 1) false (some i) with
      | outOfFuel =>
        cases h2 : drawLoop fill o2 kt dd idim vr fmt fuel bs.next.1 (i + 1) false (some i) with
        | outOfFuel => rfl
        | panicked a b c => rw [h1, h2] at hIH; simp [LoopOut.strip] at hIH
        | ok r2 => rw [h1, h2] at hIH; simp [LoopOut.strip] at hIH
      | panicked a b c =>
        cases h2 : drawLoop fill o2 kt dd idim vr fmt fuel bs.next.1 (i + 1) false (some i) with
        | outOfFuel => rw [h1, h2] at hIH; simp [LoopOut.strip] at hIH
        | panicked a2 b2 c2 =>
          rw [h1, h2] at hIH
          simp only [LoopOut.strip, LoopOut.panicked.injEq] at hIH
          obtain ⟨ha, hb, hc⟩ := hIH
          subst ha; subst hb; subst hc; rfl
        | ok r2 => rw [h1, h2] at hIH; simp [LoopOut.strip] at hIH
      | ok r1 =>
        cases h2 : drawLoop fill o2 kt dd idim vr fmt fuel bs.next.1 (i + 1) false (some i) with
        | outOfFuel => rw [h1, h2] at hIH; simp [LoopOut.strip] at hIH
        | panicked a b c => rw [h1, h2] at hIH; simp [LoopOut.strip] at hIH
        | ok r2 =>
          rw [h1, h2] at hIH
          simp only [LoopOut.strip, LoopOut.ok.injEq, LoopResult.mk.injEq, and_true] at hIH
          obtain ⟨hp, hf, hd⟩ := hIH
          simp only [LoopOut.strip, LoopOut.ok.injEq, LoopResult.mk.injEq, and_true, hp, hf, hd]

/-- If the producer breaks its capacity contract at iteration `i` (after `i`
iterations of `HasMoreNotes`), the loop hits the assertion and panics there. -/
theorem drawLoop_panic {fill : Nat → NotePassStatus} {waitOk : Nat → Bool}
    {kt : List KeyPosition} {dd idim : Nat × Nat} {vr : ℚ} {fmt : Format} {C rm : Nat} :
    ∀ (i : Nat) (fuel : Nat) (bs : BufferSet) (base : Nat) (firstPass : Bool) (prev : Option Nat),
      bs.uniform C →
      (∀ j, j < i → fill (base + j) = NotePassStatus.HasMoreNotes) →
      fill (base + i) = NotePassStatus.Finished rm →
      C < rm →
      i < fuel →
      drawLoop fill waitOk kt dd idim vr fmt fuel bs base firstPass prev
        = LoopOut.panicked (base + i) rm C := by
  intro i
  induction i with
  | zero =>
    intro fuel bs base firstPass prev hbs hall hfin hC hfuel
    obtain ⟨f', rfl⟩ : ∃ f', fuel = f' + 1 := ⟨fuel - 1, by omega⟩
    rw [drawLoop]
    simp only [Nat.add_zero] at hfin
    rw [hfin]
    simp only
    rw [BufferSet.uniform_buffer_len hbs]
    rw [if_neg (by omega)]
    simp
  | succ i ih =>
    intro fuel bs base firstPass prev hbs hall hfin hC hfuel
    obtain ⟨f', rfl⟩ : ∃ f', fuel = f' + 1 := ⟨fuel - 1, by omega⟩
    rw [drawLoop]
    have h0 : fill base = NotePassStatus.HasMoreNotes := by
      have := hall 0 (by omega); simpa using this
    rw [h0]
    simp only
    have hrec := ih f' bs.next.1 (base + 1) false (some base)
      (BufferSet.uniform_next hbs).1
      (fun j hj => by
        have := hall (j + 1) (by omega)
        rw [show base + 1 + j = base + (j + 1) from by omega]
        exact this)
      (by rw [show base + 1 + i = base + (i + 1) from by omega]; exact hfin)
      hC (by omega)
    rw [hrec]
    simp only
    congr 1
    omega

/-- Termination and pass count for a §6-contract producer: with enough fuel,
the loop completes with `(notes_left - 1) / C + 1` passes. -/
theorem drawLoop_contract {waitOk : Nat → Bool} {kt : List KeyPosition}
    {dd idim : Nat × Nat} {vr : ℚ} {fmt : Format} {N C : Nat} (hC : 0 < C) :
    ∀ (fuel : Nat) (bs : BufferSet) (i : Nat) (firstPass : Bool) (prev : Option Nat),
      bs.uniform C →
      (N - i * C - 1) / C + 1 ≤ fuel →
      ∃ r, drawLoop (contractProducer N C) waitOk kt dd idim vr fmt fuel bs i firstPass prev
          = LoopOut.ok r ∧
        r.passes.length = (N - i * C - 1) / C + 1 := by
  intro fuel
  induction fuel with
  | zero =>
    intro bs i firstPass prev hbs hfuel
    exact absurd hfuel (Nat.not_succ_le_zero _)
  | succ fuel ih =>
    intro bs i firstPass prev hbs hfuel
    rw [drawLoop]
    by_cases hm : C < N - i * C
    · have hfi : contractProducer N C i = NotePassStatus.HasMoreNotes := by
        unfold contractProducer; rw [if_pos hm]
      rw [hfi]
      simp only
      have hmul : (i + 1) * C = i * C + C := by ring
      have hm' : N - (i + 1) * C = N - i * C - C := by omega
      have hsub : N - i * C - 1 = (N - i * C - C - 1) + C := by omega
      have hdiv : (N - i * C - 1) / C = (N - i * C - C - 1) / C + 1 := by
        rw [hsub, Nat.add_div_right _ hC]
      have hfuel' : (N - (i + 1) * C - 1) / C + 1 ≤ fuel := by
        rw [hm', ← hdiv]
        omega
      obtain ⟨r', hr', hlen'⟩ := ih bs.next.1 (i + 1) false (some i)
        (BufferSet.uniform_next hbs).1 hfuel'
      rw [hr']
      simp only
      refine ⟨_, rfl, ?_⟩
      simp only [List.length_cons]
      rw [hlen', hm', hdiv]
    · have hfi : contractProducer N C i = NotePassStatus.Finished (N - i * C) := by
        unfold contractProducer; rw [if_neg hm]
      rw [hfi]
      simp only
      rw [BufferSet.uniform_buffer_len hbs]
      rw [if_pos (by omega)]
      refine ⟨_, rfl, ?_⟩
      simp only [List.length_cons, List.length_nil]
      have hz : (N - i * C - 1) / C = 0 := Nat.div_eq_of_lt (by omega)
      rw [hz]

/-- Shape of a completed `draw` call in terms of its pagination loop. -/
theorem draw_ok_elim {self : NoteRenderPass} {fuel : Nat} {idim : Nat × Nat}
    {kv : List KeyExtent} {vr : ℚ} {fill : Nat → NotePassStatus} {o : Nat → Bool} {fmt : Format}
    (h : (self.draw fuel idim kv vr fill o fmt).isOk = true) :
    ∃ r, drawLoop fill o (overwriteKeyTable self.key_locations kv)
        (if self.depth_buffer = idim then self.depth_buffer else idim) idim vr fmt
        fuel self.buffer_set 0 true none = LoopOut.ok r ∧
      self.draw fuel idim kv vr fill o fmt = DrawOut.ok
        { passes := r.passes
          drainWaited := r.drain
          logs := r.logs ++ waitLogs o r.drain
          depthRecreated := if self.depth_buffer = idim then false else true
          finalState :=
            { buffer_set := r.finalBufs
              depth_buffer := if self.depth_buffer = idim then self.depth_buffer else idim
              key_locations := overwriteKeyTable self.key_locations kv } } := by
  unfold NoteRenderPass.draw at h ⊢
  cases hl : drawLoop fill o (overwriteKeyTable self.key_locations kv)
      (if self.depth_buffer = idim then self.depth_buffer else idim) idim vr fmt
      fuel self.buffer_set 0 true none with
  | outOfFuel => rw [hl] at h; simp [DrawOut.isOk] at h
  | panicked a b c => rw [hl] at h; simp [DrawOut.isOk] at h
  | ok r => refine ⟨r, rfl, ?_⟩; rfl

/-- The depth attachment's dimensions after the init step always equal the
output image's dimensions. -/
theorem depth_after_init (a idim : Nat × Nat) :
    (if a = idim then a else idim) = idim := by
  split
  · assumption
  · rfl

/-- When the provider yields at least as many extents as the table has
entries, the refresh overwrites the whole table in key-id order. -/
theorem overwriteKeyTable_full :
    ∀ (olds : List KeyPosition) (ks : List KeyExtent),
      olds.length ≤ ks.length →
      overwriteKeyTable olds ks
        = (ks.take olds.length).map
            (fun k => { left := k.left, right := k.right, padding := List.replicate 8 0 }) := by
  intro olds
  induction olds with
  | nil => intro ks h; simp [overwriteKeyTable]
  | cons o olds ih =>
    intro ks h
    cases ks with
    | nil => simp at h
    | cons k ks =>
      simp only [overwriteKeyTable, List.length_cons, List.take_succ_cons, List.map_cons]
      congr 1
      exact ih ks (by simpa using h)

/-- The key-table refresh never changes the table's length. -/
theorem overwriteKeyTable_length :
    ∀ (olds : List KeyPosition) (ks : List KeyExtent),
      (overwriteKeyTable olds ks).length = olds.length := by
  intro olds
  induction olds with
  | nil => intro ks; cases ks <;> simp [overwriteKeyTable]
  | cons o olds ih =>
    intro ks
    cases ks with
    | nil => simp [overwriteKeyTable]
    | cons k ks => simp [overwriteKeyTable, ih ks]

/-! ### Claims -/

/-- C10: for every `start`, `length`, `key` and `color`, `NoteVertex::new`
packs key and color into one 32-bit field as
`key_color = key | (color * 2 ^ 8 mod 2 ^ 32)`; the low 8 bits of the stored
field equal `key`, and the most significant 8 bits of the caller's 32-bit
`color` are discarded by the shift (the result only depends on
`color mod 2 ^ 24`). -/
theorem claim_C10 (start len : ℚ) (key color : Nat) (hkey : key < 2 ^ 8) :
    (NoteVertex.new start len key color).key_color
      = Nat.lor key (color * 2 ^ 8 % 2 ^ 32) ∧
    (NoteVertex.new start len key color).key_color % 2 ^ 8 = key ∧
    NoteVertex.new start len key color = NoteVertex.new start len key (color % 2 ^ 24) := by
  have hred : color * 2 ^ 8 % 2 ^ 32 = color % 2 ^ 24 * 2 ^ 8 := by
    have h32 : (2 : Nat) ^ 32 = 2 ^ 24 * 2 ^ 8 := by norm_num
    rw [h32, Nat.mul_mod_mul_right]
  refine ⟨rfl, ?_, ?_⟩
  · show (key ||| color * 2 ^ 8 % 2 ^ 32) % 2 ^ 8 = key
    rw [hred]
    apply Nat.eq_of_testBit_eq
    intro idx
    rw [← Nat.shiftLeft_eq]
    simp only [Nat.testBit_mod_two_pow, Nat.testBit_lor, Nat.testBit_shiftLeft]
    by_cases hidx : idx < 8
    · have h8 : ¬ (8 ≤ idx) := by omega
      simp [hidx, h8]
    · have h8 : Nat.testBit key idx = false :=
        Nat.testBit_lt_two_pow
          (lt_of_lt_of_le hkey (Nat.pow_le_pow_right (by norm_num) (by omega)))
      simp [hidx, h8]
  · have hlt : color % 2 ^ 24 * 2 ^ 8 < 2 ^ 32 := by omega
    unfold NoteVertex.new
    rw [hred, Nat.mod_eq_of_lt hlt]

/-- C10 witness: key 7, color `0xFF000001` (top byte set). -/
theorem claim_C10_witness :
    (7 : Nat) < 2 ^ 8 ∧
    (NoteVertex.new 1 2 7 4278190081).key_color % 2 ^ 8 = 7 ∧
    NoteVertex.new 1 2 7 4278190081 = NoteVertex.new 1 2 7 (4278190081 % 2 ^ 24) :=
  ⟨by decide, (claim_C10 1 2 7 4278190081 (by decide)).2.1,
    (claim_C10 1 2 7 4278190081 (by decide)).2.2⟩

/-- C9: the first pass of every completed `NoteRenderPass::draw` call is a
clearing pass whose clear values reset the color attachment to transparent
black `(0, 0, 0, 0)` and the depth attachment to far depth `1.0`, bound to the
clear pipeline and the clear render pass (whose loads are `Clear`). -/
theorem claim_C9 (self : NoteRenderPass) (fuel : Nat) (idim : Nat × Nat)
    (kv : List KeyExtent) (vr : ℚ) (fill : Nat → NotePassStatus) (o : Nat → Bool) (fmt : Format)
    (h : (self.draw fuel idim kv vr fill o fmt).isOk = true) :
    0 < (self.draw fuel idim kv vr fill o fmt).passesOf.length ∧
    ((self.draw fuel idim kv vr fill o fmt).passesOf.getD 0 dummyPass).usesClearPipeline = true ∧
    ((self.draw fuel idim kv vr fill o fmt).passesOf.getD 0 dummyPass).clearValues
      = [some (ClearValue.color 0 0 0 0), some (ClearValue.depth 1)] ∧
    ((self.draw fuel idim kv vr fill o fmt).passesOf.getD 0 dummyPass).renderPass
      = render_pass_clear fmt ∧
    (render_pass_clear fmt).final_color.load = LoadOp.Clear ∧
    (render_pass_clear fmt).depth.load = LoadOp.Clear := by
  obtain ⟨r, hl, hdraw⟩ := draw_ok_elim h
  obtain ⟨hpos, hdrain, hj⟩ := drawLoop_fields fuel self.buffer_set 0 true none r hl
  obtain ⟨-, -, -, -, -, -, -, h8, h9, h10⟩ := hj 0 hpos
  rw [hdraw]
  simp only [DrawOut.passesOf]
  refine ⟨hpos, by simpa using h8, by simpa using h10, by simpa using h9, rfl, rfl⟩

/-- C9 witness: a one-pass frame on a fresh `NoteRenderPass`. -/
theorem claim_C9_witness :
    (NoteRenderPass.new.draw 2 (1, 1) [] 0 (fun _ => NotePassStatus.Finished 0)
        (fun _ => true) (Format.surface 0)).isOk = true ∧
    ((NoteRenderPass.new.draw 2 (1, 1) [] 0 (fun _ => NotePassStatus.Finished 0)
        (fun _ => true) (Format.surface 0)).passesOf.getD 0 dummyPass).clearValues
      = [some (ClearValue.color 0 0 0 0), some (ClearValue.depth 1)] :=
  ⟨by decide,
    (claim_C9 NoteRenderPass.new 2 (1, 1) [] 0 (fun _ => NotePassStatus.Finished 0)
      (fun _ => true) (Format.surface 0) (by decide)).2.2.1⟩

/-- C7: in every completed `NoteRenderPass::draw` call, the depth target's
dimensions equal the output image's dimensions at every pass; the depth
target is recreated (at the image's dimensions) if and only if its stored
dimensions differ from the output image's, and is reused unchanged
otherwise. -/
theorem claim_C7 (self : NoteRenderPass) (fuel : Nat) (idim : Nat × Nat)
    (kv : List KeyExtent) (vr : ℚ) (fill : Nat → NotePassStatus) (o : Nat → Bool) (fmt : Format)
    (h : (self.draw fuel idim kv vr fill o fmt).isOk = true) :
    (∀ j, j < (self.draw fuel idim kv vr fill o fmt).passesOf.length →
      ((self.draw fuel idim kv vr fill o fmt).passesOf.getD j dummyPass).depthDims = idim ∧
      ((self.draw fuel idim kv vr fill o fmt).passesOf.getD j dummyPass).imgDims = idim) ∧
    (self.draw fuel idim kv vr fill o fmt).finalStateOf.depth_buffer = idim ∧
    (self.draw fuel idim kv vr fill o fmt).recreatedOf
      = (if self.depth_buffer = idim then false else true) ∧
    (self.depth_buffer = idim →
      (self.draw fuel idim kv vr fill o fmt).finalStateOf.depth_buffer = self.depth_buffer) := by
  obtain ⟨r, hl, hdraw⟩ := draw_ok_elim h
  obtain ⟨hpos, hdrain, hj⟩ := drawLoop_fields fuel self.buffer_set 0 true none r hl
  rw [hdraw]
  refine ⟨?_, ?_, rfl, ?_⟩
  · intro j hjlt
    simp only [DrawOut.passesOf] at hjlt ⊢
    obtain ⟨-, -, -, h4, h5, -, -, -, -, -⟩ := hj j hjlt
    rw [depth_after_init] at h4
    exact ⟨h4, h5⟩
  · simp only [DrawOut.finalStateOf]
    exact depth_after_init _ _
  · intro heq
    simp only [DrawOut.finalStateOf]
    rw [depth_after_init, heq]

/-- C7 witness: unchanged dimensions, depth target reused. -/
theorem claim_C7_witness :
    (NoteRenderPass.new.draw 2 (1, 1) [] 0 (fun _ => NotePassStatus.Finished 0)
        (fun _ => true) (Format.surface 0)).isOk = true ∧
    (NoteRenderPass.new.draw 2 (1, 1) [] 0 (fun _ => NotePassStatus.Finished 0)
        (fun _ => true) (Format.surface 0)).finalStateOf.depth_buffer = (1, 1) :=
  ⟨by decide,
    (claim_C7 NoteRenderPass.new 2 (1, 1) [] 0 (fun _ => NotePassStatus.Finished 0)
      (fun _ => true) (Format.surface 0) (by decide)).2.1⟩

/-- C4: in every completed `NoteRenderPass::draw` call, at most one submission
is in flight at any time: the first pass submits without waiting, every later
pass waits on the completion handle of the submission directly before it, and
after the loop the drain waits on the last submission before `draw`
returns. -/
theorem claim_C4 (self : NoteRenderPass) (fuel : Nat) (idim : Nat × Nat)
    (kv : List KeyExtent) (vr : ℚ) (fill : Nat → NotePassStatus) (o : Nat → Bool) (fmt : Format)
    (h : (self.draw fuel idim kv vr fill o fmt).isOk = true) :
    0 < (self.draw fuel idim kv vr fill o fmt).passesOf.length ∧
    (∀ j, j < (self.draw fuel idim kv vr fill o fmt).passesOf.length →
      ((self.draw fuel idim kv vr fill o fmt).passesOf.getD j dummyPass).submissionId = j ∧
      ((self.draw fuel idim kv vr fill o fmt).passesOf.getD j dummyPass).waitedBeforeSubmit
        = (if j = 0 then none else some (j - 1))) ∧
    (self.draw fuel idim kv vr fill o fmt).drainOf
      = some ((self.draw fuel idim kv vr fill o fmt).passesOf.length - 1) := by
  obtain ⟨r, hl, hdraw⟩ := draw_ok_elim h
  obtain ⟨hpos, hdrain, hj⟩ := drawLoop_fields fuel self.buffer_set 0 true none r hl
  rw [hdraw]
  simp only [DrawOut.passesOf, DrawOut.drainOf]
  refine ⟨hpos, ?_, by simpa using hdrain⟩
  intro j hjlt
  obtain ⟨h1, -, -, -, -, -, h7, -, -, -⟩ := hj j hjlt
  refine ⟨by simpa using h1, ?_⟩
  rw [h7]
  rcases j with _ | j'
  · rfl
  · simp

/-- C4 witness: a three-pass frame. -/
theorem claim_C4_witness :
    (NoteRenderPass.new.draw 4 (1, 1) [] 0
        (fun i => if i < 2 then NotePassStatus.HasMoreNotes else NotePassStatus.Finished 3)
        (fun _ => true) (Format.surface 0)).isOk = true ∧
    (NoteRenderPass.new.draw 4 (1, 1) [] 0
        (fun i => if i < 2 then NotePassStatus.HasMoreNotes else NotePassStatus.Finished 3)
        (fun _ => true) (Format.surface 0)).drainOf
      = some ((NoteRenderPass.new.draw 4 (1, 1) [] 0
        (fun i => if i < 2 then NotePassStatus.HasMoreNotes else NotePassStatus.Finished 3)
        (fun _ => true) (Format.surface 0)).passesOf.length - 1) :=
  ⟨by decide,
    (claim_C4 NoteRenderPass.new 4 (1, 1) [] 0
      (fun i => if i < 2 then NotePassStatus.HasMoreNotes else NotePassStatus.Finished 3)
      (fun _ => true) (Format.surface 0) (by decide)).2.2⟩

/-- C2 counterexample: a concrete two-pass frame in which the second pass's
render pass descriptor loads both attachments with `DontCare` — which lets
the implementation discard prior contents — not with the preserving `Load`
op, refuting the claim that passes after the first leave the attachments'
prior contents untouched. -/
theorem claim_C2_counterexample :
    1 < (NoteRenderPass.draw
        { buffer_set :=
            { vertexBuffers := [{ offset := 0, len := 1 }, { offset := 1, len := 1 }]
              index := 0 }
          depth_buffer := (4, 4)
          key_locations := [] }
        3 (4, 4) [] 0
        (fun i => if i = 0 then NotePassStatus.HasMoreNotes else NotePassStatus.Finished 0)
        (fun _ => true) (Format.surface 0)).passesOf.length ∧
    ((NoteRenderPass.draw
        { buffer_set :=
            { vertexBuffers := [{ offset := 0, len := 1 }, { offset := 1, len := 1 }]
              index := 0 }
          depth_buffer := (4, 4)
          key_locations := [] }
        3 (4, 4) [] 0
        (fun i => if i = 0 then NotePassStatus.HasMoreNotes else NotePassStatus.Finished 0)
        (fun _ => true) (Format.surface 0)).passesOf.getD 1 dummyPass).renderPass.final_color.load
      = LoadOp.DontCare ∧
    ((NoteRenderPass.draw
        { buffer_set :=
            { vertexBuffers := [{ offset := 0, len := 1 }, { offset := 1, len := 1 }]
              index := 0 }
          depth_buffer := (4, 4)
          key_locations := [] }
        3 (4, 4) [] 0
        (fun i => if i = 0 then NotePassStatus.HasMoreNotes else NotePassStatus.Finished 0)
        (fun _ => true) (Format.surface 0)).passesOf.getD 1 dummyPass).renderPass.depth.load
      = LoadOp.DontCare ∧
    LoadOp.preservesPriorContents LoadOp.DontCare = false := by decide

/-- C2 (amended): in every completed `NoteRenderPass::draw` call, each pass
after the first is an accumulating pass: it requests no clear (clear values
`[none, none]`, accumulating pipeline, `render_pass_draw_over` descriptor),
but the descriptor's load op for both attachments is `DontCare`, which leaves
the attachments' prior contents to the implementation (possibly discarded)
rather than guaranteeing their preservation. -/
theorem claim_C2_amended (self : NoteRenderPass) (fuel : Nat) (idim : Nat × Nat)
    (kv : List KeyExtent) (vr : ℚ) (fill : Nat → NotePassStatus) (o : Nat → Bool) (fmt : Format)
    (h : (self.draw fuel idim kv vr fill o fmt).isOk = true) :
    ∀ j, 0 < j → j < (self.draw fuel idim kv vr fill o fmt).passesOf.length →
      ((self.draw fuel idim kv vr fill o fmt).passesOf.getD j dummyPass).usesClearPipeline
        = false ∧
      ((self.draw fuel idim kv vr fill o fmt).passesOf.getD j dummyPass).clearValues
        = [none, none] ∧
      ((self.draw fuel idim kv vr fill o fmt).passesOf.getD j dummyPass).renderPass
        = render_pass_draw_over fmt ∧
      (render_pass_draw_over fmt).final_color.load = LoadOp.DontCare ∧
      (render_pass_draw_over fmt).depth.load = LoadOp.DontCare := by
  obtain ⟨r, hl, hdraw⟩ := draw_ok_elim h
  obtain ⟨hpos, -, hj⟩ := drawLoop_fields fuel self.buffer_set 0 true none r hl
  rw [hdraw]
  simp only [DrawOut.passesOf]
  intro j hj0 hjlt
  obtain ⟨-, -, -, -, -, -, -, h8, h9, h10⟩ := hj j hjlt
  have hb : (j == 0) = false := beq_eq_false_iff_ne.mpr (by omega)
  rw [hb] at h8 h9 h10
  simp only [Bool.and_false, Bool.false_eq_true, if_false] at h8 h9 h10
  exact ⟨h8, h10, h9, rfl, rfl⟩

/-- C2 (amended) witness: the second pass of a concrete two-pass frame. -/
theorem claim_C2_amended_witness :
    (NoteRenderPass.new.draw 3 (1, 1) [] 0
        (fun i => if i = 0 then NotePassStatus.HasMoreNotes else NotePassStatus.Finished 0)
        (fun _ => true) (Format.surface 0)).isOk = true ∧
    ((NoteRenderPass.new.draw 3 (1, 1) [] 0
        (fun i => if i = 0 then NotePassStatus.HasMoreNotes else NotePassStatus.Finished 0)
        (fun _ => true) (Format.surface 0)).passesOf.getD 1 dummyPass).usesClearPipeline
      = false :=
  ⟨by decide,
    ((claim_C2_amended NoteRenderPass.new 3 (1, 1) [] 0
        (fun i => if i = 0 then NotePassStatus.HasMoreNotes else NotePassStatus.Finished 0)
        (fun _ => true) (Format.surface 0) (by decide)) 1 (by decide)
      (by decide)).1⟩

/-- `draw` never branches on the result of a completion wait: erasing the
log, its outcome is identical under any two wait oracles. -/
theorem draw_strip (self : NoteRenderPass) (fuel : Nat) (idim : Nat × Nat)
    (kv : List KeyExtent) (vr : ℚ) (fill : Nat → NotePassStatus) (o1 o2 : Nat → Bool)
    (fmt : Format) :
    (self.draw fuel idim kv vr fill o1 fmt).strip
      = (self.draw fuel idim kv vr fill o2 fmt).strip := by
  unfold NoteRenderPass.draw
  have hIH := @drawLoop_strip fill o1 o2 (overwriteKeyTable self.key_locations kv)
    (if self.depth_buffer = idim then self.depth_buffer else idim) idim vr fmt
    fuel self.buffer_set 0 true none
  cases h1 : drawLoop fill o1 (overwriteKeyTable self.key_locations kv)
      (if self.depth_buffer = idim then self.depth_buffer else idim) idim vr fmt
      fuel self.buffer_set 0 true none with
  | outOfFuel =>
    cases h2 : drawLoop fill o2 (overwriteKeyTable self.key_locations kv)
        (if self.depth_buffer = idim then self.depth_buffer else idim) idim vr fmt
        fuel self.buffer_set 0 true none with
    | outOfFuel => rfl
    | panicked a b c => rw [h1, h2] at hIH; simp [LoopOut.strip] at hIH
    | ok r2 => rw [h1, h2] at hIH; simp [LoopOut.strip] at hIH
  | panicked a b c =>
    cases h2 : drawLoop fill o2 (overwriteKeyTable self.key_locations kv)
        (if self.depth_buffer = idim then self.depth_buffer else idim) idim vr fmt
        fuel self.buffer_set 0 true none with
    | outOfFuel => rw [h1, h2] at hIH; simp [LoopOut.strip] at hIH
    | panicked a2 b2 c2 =>
      rw [h1, h2] at hIH
      simp only [LoopOut.strip, LoopOut.panicked.injEq] at hIH
      obtain ⟨ha, hb, hc⟩ := hIH
      subst ha; subst hb; subst hc; rfl
    | ok r2 => rw [h1, h2] at hIH; simp [LoopOut.strip] at hIH
  | ok r1 =>
    cases h2 : drawLoop fill o2 (overwriteKeyTable self.key_locations kv)
        (if self.depth_buffer = idim then self.depth_buffer else idim) idim vr fmt
        fuel self.buffer_set 0 true none with
    | outOfFuel => rw [h1, h2] at hIH; simp [LoopOut.strip] at hIH
    | panicked a b c => rw [h1, h2] at hIH; simp [LoopOut.strip] at hIH
    | ok r2 =>
      rw [h1, h2] at hIH
      simp only [LoopOut.strip, LoopOut.ok.injEq, LoopResult.mk.injEq, and_true] at hIH
      obtain ⟨hp, hf, hd⟩ := hIH
      simp only [DrawOut.strip, DrawOut.ok.injEq, DrawOk.mk.injEq, NoteRenderPass.mk.injEq,
        and_true, hp, hf, hd]

/-- C5: an error reported while waiting on a prior submission's completion
handle is logged and otherwise ignored.  `draw` behaves — passes,
panic-status, drain, final state — exactly as if every wait succeeded (only
the log differs), and the log consists precisely of the waited submissions
whose wait the oracle fails (one wait per submission, in order). -/
theorem claim_C5 (self : NoteRenderPass) (fuel : Nat) (idim : Nat × Nat)
    (kv : List KeyExtent) (vr : ℚ) (fill : Nat → NotePassStatus) (o : Nat → Bool) (fmt : Format)
    (h : (self.draw fuel idim kv vr fill o fmt).isOk = true) :
    (self.draw fuel idim kv vr fill o fmt).strip
      = (self.draw fuel idim kv vr fill (fun _ => true) fmt).strip ∧
    (self.draw fuel idim kv vr fill o fmt).logsOf
      = (List.range (self.draw fuel idim kv vr fill o fmt).passesOf.length).filter
          (fun s => ! o s) := by
  obtain ⟨r, hl, hdraw⟩ := draw_ok_elim h
  obtain ⟨hpos, hdrain, -⟩ := drawLoop_fields fuel self.buffer_set 0 true none r hl
  refine ⟨draw_strip self fuel idim kv vr fill o (fun _ => true) fmt, ?_⟩
  rw [hdraw]
  simp only [DrawOut.logsOf, DrawOut.passesOf]
  have hlogs := drawLoop_logs fuel self.buffer_set 0 true none r hl
  rw [hlogs, hdrain]
  simp only [waitLogs, List.nil_append, Nat.zero_add]
  rw [List.range_eq_range']
  have hsplit : List.range' 0 r.passes.length
      = List.range' 0 (r.passes.length - 1) ++ [0 + 1 * (r.passes.length - 1)] := by
    conv_lhs => rw [show r.passes.length = (r.passes.length - 1) + 1 from by omega]
    exact List.range'_concat 0 (r.passes.length - 1)
  rw [hsplit, List.filter_append]
  simp only [Nat.zero_add, Nat.one_mul]
  congr 1
  cases ho : o (r.passes.length - 1) <;> simp [ho]

/-- C5 witness: a two-pass frame under an oracle that fails every wait; both
waited submissions (`0` in the loop, `1` at the drain) are logged. -/
theorem claim_C5_witness :
    (NoteRenderPass.new.draw 3 (1, 1) [] 0
        (fun i => if i = 0 then NotePassStatus.HasMoreNotes else NotePassStatus.Finished 0)
        (fun _ => false) (Format.surface 0)).isOk = true ∧
    (NoteRenderPass.new.draw 3 (1, 1) [] 0
        (fun i => if i = 0 then NotePassStatus.HasMoreNotes else NotePassStatus.Finished 0)
        (fun _ => false) (Format.surface 0)).logsOf
      = (List.range (NoteRenderPass.new.draw 3 (1, 1) [] 0
          (fun i => if i = 0 then NotePassStatus.HasMoreNotes else NotePassStatus.Finished 0)
          (fun _ => false) (Format.surface 0)).passesOf.length).filter
          (fun s => ! (fun _ => false) s) :=
  ⟨by decide,
    (claim_C5 NoteRenderPass.new 3 (1, 1) [] 0
      (fun i => if i = 0 then NotePassStatus.HasMoreNotes else NotePassStatus.Finished 0)
      (fun _ => false) (Format.surface 0) (by decide)).2⟩

/-- C8: at the start of each completed `NoteRenderPass::draw` call, before the
first pass, every entry of the 256-entry key table is overwritten in key-id
order with the `{left, right}` extents from the keyboard view (under the §6
provider precondition that the view yields at least 256 extents); the table
is not written again during the pagination loop, so every pass of the frame
binds the identical snapshot regardless of how many passes occur. -/
theorem claim_C8 (self : NoteRenderPass) (fuel : Nat) (idim : Nat × Nat)
    (kv : List KeyExtent) (vr : ℚ) (fill : Nat → NotePassStatus) (o : Nat → Bool) (fmt : Format)
    (hlen : self.key_locations.length = 256) (hkv : 256 ≤ kv.length)
    (h : (self.draw fuel idim kv vr fill o fmt).isOk = true) :
    (self.draw fuel idim kv vr fill o fmt).finalStateOf.key_locations
      = (kv.take 256).map
          (fun k => { left := k.left, right := k.right, padding := List.replicate 8 0 }) ∧
    (self.draw fuel idim kv vr fill o fmt).finalStateOf.key_locations.length = 256 ∧
    (∀ j, j < (self.draw fuel idim kv vr fill o fmt).passesOf.length →
      ((self.draw fuel idim kv vr fill o fmt).passesOf.getD j dummyPass).keyTableSnapshot
        = (kv.take 256).map
            (fun k => { left := k.left, right := k.right, padding := List.replicate 8 0 })) := by
  obtain ⟨r, hl, hdraw⟩ := draw_ok_elim h
  obtain ⟨hpos, -, hj⟩ := drawLoop_fields fuel self.buffer_set 0 true none r hl
  have htable : overwriteKeyTable self.key_locations kv
      = (kv.take 256).map
          (fun k => { left := k.left, right := k.right, padding := List.replicate 8 0 }) := by
    rw [overwriteKeyTable_full self.key_locations kv (by omega), hlen]
  rw [hdraw]
  simp only [DrawOut.finalStateOf, DrawOut.passesOf]
  refine ⟨htable, ?_, ?_⟩
  · rw [overwriteKeyTable_length, hlen]
  · intro j hjlt
    obtain ⟨-, -, h3, -, -, -, -, -, -, -⟩ := hj j hjlt
    rw [h3, htable]

/-- C8 witness: a full 256-extent view on a fresh `NoteRenderPass`. -/
theorem claim_C8_witness :
    NoteRenderPass.new.key_locations.length = 256 ∧
    256 ≤ (List.replicate 256 (KeyExtent.mk 3 4)).length ∧
    (NoteRenderPass.new.draw 2 (1, 1) (List.replicate 256 (KeyExtent.mk 3 4)) 0
        (fun _ => NotePassStatus.Finished 0) (fun _ => true) (Format.surface 0)).isOk = true ∧
    (NoteRenderPass.new.draw 2 (1, 1) (List.replicate 256 (KeyExtent.mk 3 4)) 0
        (fun _ => NotePassStatus.Finished 0) (fun _ => true)
        (Format.surface 0)).finalStateOf.key_locations.length = 256 :=
  ⟨by decide, by decide, by decide,
    (claim_C8 NoteRenderPass.new 2 (1, 1) (List.replicate 256 (KeyExtent.mk 3 4)) 0
      (fun _ => NotePassStatus.Finished 0) (fun _ => true) (Format.surface 0)
      (by decide) (by decide) (by decide)).2.1⟩

/-- C6: the double buffer pool holds exactly two physical buffers and `next`
never allocates (it preserves the buffer list and only advances the
alternation index, returning the buffer not returned by the immediately
preceding call); consequently, in every completed `draw` call consecutive
pagination steps bind different buffers, the first step's buffer differs from
the one recorded as current at entry, and the state handed to the next frame
records the last buffer used — so the alternation also spans frames. -/
theorem claim_C6 (bs : BufferSet) (self : NoteRenderPass) (C fuel : Nat) (idim : Nat × Nat)
    (kv : List KeyExtent) (vr : ℚ) (fill : Nat → NotePassStatus) (o : Nat → Bool) (fmt : Format)
    (_hidx : bs.index < 2) (hblen : bs.vertexBuffers.length = 2)
    (hbs : self.buffer_set.uniform C)
    (h : (self.draw fuel idim kv vr fill o fmt).isOk = true) :
    BufferSet.new.vertexBuffers.length = 2 ∧
    bs.next.1.vertexBuffers = bs.vertexBuffers ∧
    bs.next.2 ≠ bs.index ∧
    bs.next.1.index = bs.next.2 ∧
    bs.next.2 < 2 ∧
    (∀ j, j + 1 < (self.draw fuel idim kv vr fill o fmt).passesOf.length →
      ((self.draw fuel idim kv vr fill o fmt).passesOf.getD (j + 1) dummyPass).bufferIndex
        ≠ ((self.draw fuel idim kv vr fill o fmt).passesOf.getD j dummyPass).bufferIndex) ∧
    ((self.draw fuel idim kv vr fill o fmt).passesOf.getD 0 dummyPass).bufferIndex
      ≠ self.buffer_set.index ∧
    (self.draw fuel idim kv vr fill o fmt).finalStateOf.buffer_set.index
      = ((self.draw fuel idim kv vr fill o fmt).passesOf.getD
          ((self.draw fuel idim kv vr fill o fmt).passesOf.length - 1) dummyPass).bufferIndex ∧
    (self.draw fuel idim kv vr fill o fmt).finalStateOf.buffer_set.vertexBuffers
      = self.buffer_set.vertexBuffers := by
  obtain ⟨r, hl, hdraw⟩ := draw_ok_elim h
  obtain ⟨hpos, -, -⟩ := drawLoop_fields fuel self.buffer_set 0 true none r hl
  obtain ⟨hjb, -, hvb, hfin⟩ := drawLoop_buf fuel self.buffer_set 0 true none r hbs hl
  obtain ⟨-, -, hidx0, -⟩ := hbs
  rw [hdraw]
  simp only [DrawOut.passesOf, DrawOut.finalStateOf]
  refine ⟨rfl, rfl, ?_, rfl, ?_, ?_, ?_, ?_, hvb⟩
  · show (bs.index + 1) % bs.vertexBuffers.length ≠ bs.index
    rw [hblen]; omega
  · show (bs.index + 1) % bs.vertexBuffers.length < 2
    rw [hblen]; omega
  · intro j hjlt
    obtain ⟨hb1, -, -⟩ := hjb (j + 1) hjlt
    obtain ⟨hb0, -, -⟩ := hjb j (by omega)
    rw [hb1, hb0]
    omega
  · obtain ⟨hb0, -, -⟩ := hjb 0 hpos
    rw [hb0]
    omega
  · obtain ⟨hbL, -, -⟩ := hjb (r.passes.length - 1) (by omega)
    rw [hbL, hfin]
    congr 1
    omega

/-- C6 witness: a three-pass frame on a fresh pool. -/
theorem claim_C6_witness :
    BufferSet.new.index < 2 ∧
    BufferSet.new.vertexBuffers.length = 2 ∧
    NoteRenderPass.new.buffer_set.uniform NOTE_BUFFER_SIZE ∧
    (NoteRenderPass.new.draw 4 (1, 1) [] 0
        (fun i => if i < 2 then NotePassStatus.HasMoreNotes else NotePassStatus.Finished 0)
        (fun _ => true) (Format.surface 0)).isOk = true ∧
    ((NoteRenderPass.new.draw 4 (1, 1) [] 0
        (fun i => if i < 2 then NotePassStatus.HasMoreNotes else NotePassStatus.Finished 0)
        (fun _ => true) (Format.surface 0)).passesOf.getD 0 dummyPass).bufferIndex
      ≠ NoteRenderPass.new.buffer_set.index :=
  ⟨by decide, by decide, by decide, by decide,
    (claim_C6 BufferSet.new NoteRenderPass.new NOTE_BUFFER_SIZE 4 (1, 1) [] 0
      (fun i => if i < 2 then NotePassStatus.HasMoreNotes else NotePassStatus.Finished 0)
      (fun _ => true) (Format.surface 0) (by decide) (by decide) (by decide)
      (by decide)).2.2.2.2.2.2.1⟩

/-- C3: in each iteration of the pagination loop of `NoteRenderPass::draw`,
the number of items drawn is `remaining` when the producer returns
`Finished remaining` (which then satisfies `remaining ≤ C`), and exactly the
full buffer capacity `C` when it returns `HasMoreNotes`; a producer returning
`Finished remaining` with `remaining > C` makes the whole call hit the
assertion and panic at that iteration rather than return an error. -/
theorem claim_C3 (self : NoteRenderPass) (C fuel : Nat) (idim : Nat × Nat)
    (kv : List KeyExtent) (vr : ℚ) (fill : Nat → NotePassStatus) (o : Nat → Bool) (fmt : Format)
    (hbs : self.buffer_set.uniform C) :
    (∀ j, j < (self.draw fuel idim kv vr fill o fmt).passesOf.length →
      (fill j = NotePassStatus.HasMoreNotes →
        ((self.draw fuel idim kv vr fill o fmt).passesOf.getD j dummyPass).itemsToRender = C) ∧
      (∀ rm, fill j = NotePassStatus.Finished rm →
        rm ≤ C ∧
        ((self.draw fuel idim kv vr fill o fmt).passesOf.getD j dummyPass).itemsToRender = rm)) ∧
    (∀ i rm, (∀ j, j < i → fill j = NotePassStatus.HasMoreNotes) →
      fill i = NotePassStatus.Finished rm → C < rm → i < fuel →
      self.draw fuel idim kv vr fill o fmt = DrawOut.panicked i rm C) := by
  constructor
  · by_cases hok : (self.draw fuel idim kv vr fill o fmt).isOk = true
    · obtain ⟨r, hl, hdraw⟩ := draw_ok_elim hok
      obtain ⟨hjb, hlast, -, -⟩ := drawLoop_buf fuel self.buffer_set 0 true none r hbs hl
      rw [hdraw]
      simp only [DrawOut.passesOf]
      intro j hjlt
      obtain ⟨-, hitems, hmore⟩ := hjb j hjlt
      rw [Nat.zero_add] at hitems hmore
      constructor
      · intro hHM
        rw [hitems, hHM]
        rfl
      · intro rm hrm
        refine ⟨?_, by rw [hitems, hrm]; rfl⟩
        rcases Nat.lt_or_ge (j + 1) r.passes.length with hlt | hge
        · exfalso
          have hcontra := hmore hlt
          rw [hrm] at hcontra
          exact NotePassStatus.noConfusion hcontra
        · obtain ⟨rm2, hrm2, hle2⟩ := hlast
          rw [Nat.zero_add] at hrm2
          have hj : j = r.passes.length - 1 := by omega
          rw [← hj, hrm] at hrm2
          injection hrm2 with he
          omega
    · intro j hjlt
      exfalso
      cases hd : self.draw fuel idim kv vr fill o fmt with
      | outOfFuel => rw [hd] at hjlt; simp [DrawOut.passesOf] at hjlt
      | panicked a b c => rw [hd] at hjlt; simp [DrawOut.passesOf] at hjlt
      | ok dres => rw [hd] at hok; exact hok rfl
  · intro i rm hall hfin hC hfuel
    have hpanic := @drawLoop_panic fill o (overwriteKeyTable self.key_locations kv)
      (if self.depth_buffer = idim then self.depth_buffer else idim) idim vr fmt C rm
      i fuel self.buffer_set 0 true none hbs
      (fun j hj => by rw [Nat.zero_add]; exact hall j hj)
      (by rw [Nat.zero_add]; exact hfin) hC hfuel
    unfold NoteRenderPass.draw
    rw [hpanic]
    simp

/-- C3 witness: capacity 3; a producer that violates the contract with
`Finished 5` on its second call makes the concrete call panic there. -/
theorem claim_C3_witness :
    (NoteRenderPass.mk (BufferSet.mk [Buf.mk 0 3, Buf.mk 3 3] 0) (1, 1) []).buffer_set.uniform 3 ∧
    NoteRenderPass.draw (NoteRenderPass.mk (BufferSet.mk [Buf.mk 0 3, Buf.mk 3 3] 0) (1, 1) [])
        3 (1, 1) [] 0
        (fun i => if i = 0 then NotePassStatus.HasMoreNotes else NotePassStatus.Finished 5)
        (fun _ => true) (Format.surface 0)
      = DrawOut.panicked 1 5 3 :=
  ⟨by decide,
    (claim_C3 (NoteRenderPass.mk (BufferSet.mk [Buf.mk 0 3, Buf.mk 3 3] 0) (1, 1) []) 3 3 (1, 1)
      [] 0 (fun i => if i = 0 then NotePassStatus.HasMoreNotes else NotePassStatus.Finished 5)
      (fun _ => true) (Format.surface 0) (by decide)).2 1 5
      (fun j hj => by simp [Nat.lt_one_iff.mp hj])
      rfl (by decide) (by decide)⟩

/-- C1: for a §6-contract producer over a primitive stream of length `N` and
buffer capacity `C`, one `NoteRenderPass::draw` call completes and issues
exactly `⌈N/C⌉` passes when `N > 0` and exactly one pass drawing zero items
when `N = 0`; every pass before the last draws exactly `C` items, the last
draws `N − (passes−1)·C` items, which lies in `[1, C]` for `N > 0`; the first
pass uses the clearing pipeline and every subsequent pass the accumulating
pipeline. -/
theorem claim_C1 (self : NoteRenderPass) (N C fuel : Nat) (idim : Nat × Nat)
    (kv : List KeyExtent) (vr : ℚ) (o : Nat → Bool) (fmt : Format)
    (hbs : self.buffer_set.uniform C) (hC : 0 < C)
    (hfuel : (N - 1) / C + 1 ≤ fuel) :
    (self.draw fuel idim kv vr (contractProducer N C) o fmt).isOk = true ∧
    (N = 0 →
      (self.draw fuel idim kv vr (contractProducer N C) o fmt).passesOf.length = 1 ∧
      ((self.draw fuel idim kv vr (contractProducer N C) o fmt).passesOf.getD 0
        dummyPass).itemsToRender = 0) ∧
    (0 < N →
      (self.draw fuel idim kv vr (contractProducer N C) o fmt).passesOf.length
        = (N + C - 1) / C) ∧
    (∀ j, j + 1 < (self.draw fuel idim kv vr (contractProducer N C) o fmt).passesOf.length →
      ((self.draw fuel idim kv vr (contractProducer N C) o fmt).passesOf.getD j
        dummyPass).itemsToRender = C) ∧
    ((self.draw fuel idim kv vr (contractProducer N C) o fmt).passesOf.getD
        ((self.draw fuel idim kv vr (contractProducer N C) o fmt).passesOf.length - 1)
        dummyPass).itemsToRender
      = N - ((self.draw fuel idim kv vr (contractProducer N C) o fmt).passesOf.length - 1) * C ∧
    (0 < N →
      1 ≤ ((self.draw fuel idim kv vr (contractProducer N C) o fmt).passesOf.getD
          ((self.draw fuel idim kv vr (contractProducer N C) o fmt).passesOf.length - 1)
          dummyPass).itemsToRender ∧
      ((self.draw fuel idim kv vr (contractProducer N C) o fmt).passesOf.getD
          ((self.draw fuel idim kv vr (contractProducer N C) o fmt).passesOf.length - 1)
          dummyPass).itemsToRender ≤ C) ∧
    ((self.draw fuel idim kv vr (contractProducer N C) o fmt).passesOf.getD 0
        dummyPass).usesClearPipeline = true ∧
    (∀ j, 0 < j →
      j < (self.draw fuel idim kv vr (contractProducer N C) o fmt).passesOf.length →
      ((self.draw fuel idim kv vr (contractProducer N C) o fmt).passesOf.getD j
        dummyPass).usesClearPipeline = false) := by
  obtain ⟨r, hl, hlen⟩ := @drawLoop_contract o (overwriteKeyTable self.key_locations kv)
    (if self.depth_buffer = idim then self.depth_buffer else idim) idim vr fmt N C hC
    fuel self.buffer_set 0 true none hbs (by simpa using hfuel)
  simp only [Nat.zero_mul, Nat.sub_zero] at hlen
  have hdraw : self.draw fuel idim kv vr (contractProducer N C) o fmt = DrawOut.ok
      { passes := r.passes
        drainWaited := r.drain
        logs := r.logs ++ waitLogs o r.drain
        depthRecreated := if self.depth_buffer = idim then false else true
        finalState :=
          { buffer_set := r.finalBufs
            depth_buffer := if self.depth_buffer = idim then self.depth_buffer else idim
            key_locations := overwriteKeyTable self.key_locations kv } } := by
    unfold NoteRenderPass.draw
    rw [hl]
  obtain ⟨hpos, -, hfields⟩ := drawLoop_fields fuel self.buffer_set 0 true none r hl
  obtain ⟨hjb, hlast, -, -⟩ := drawLoop_buf fuel self.buffer_set 0 true none r hbs hl
  obtain ⟨rm, hrm, hrmle⟩ := hlast
  rw [Nat.zero_add] at hrm
  obtain ⟨-, hitemsL, -⟩ := hjb (r.passes.length - 1) (by omega)
  rw [Nat.zero_add, hrm] at hitemsL
  simp only [itemsFor] at hitemsL
  have hrmval : rm = N - (r.passes.length - 1) * C := by
    unfold contractProducer at hrm
    split at hrm
    · exact NotePassStatus.noConfusion hrm
    · injection hrm with he
      exact he.symm
  have hlastitems :
      (r.passes.getD (r.passes.length - 1) dummyPass).itemsToRender
        = N - (r.passes.length - 1) * C := by
    rw [hitemsL, hrmval]
  rw [hdraw]
  simp only [DrawOut.passesOf, DrawOut.isOk]
  refine ⟨trivial, ?_, ?_, ?_, hlastitems, ?_, ?_, ?_⟩
  · intro hN0
    subst hN0
    have hL1 : r.passes.length = 1 := by rw [hlen]; simp
    refine ⟨hL1, ?_⟩
    have h0 := hlastitems
    rw [hL1] at h0
    simpa using h0
  · intro hN
    rw [hlen]
    have h1 : N + C - 1 = (N - 1) + C := by omega
    rw [h1, Nat.add_div_right _ hC]
  · intro j hjlt
    obtain ⟨-, hitems, hmore⟩ := hjb j (by omega)
    rw [Nat.zero_add] at hitems hmore
    rw [hitems, hmore hjlt]
    rfl
  · intro hN
    rw [hlastitems, hlen]
    simp only [Nat.add_sub_cancel]
    have hdm := Nat.div_add_mod (N - 1) C
    have hmod := Nat.mod_lt (N - 1) hC
    generalize hq : (N - 1) / C = q at hdm ⊢
    generalize hr : (N - 1) % C = r0 at hdm hmod
    rw [Nat.mul_comm q C]
    generalize hcq : C * q = y at hdm ⊢
    omega
  · obtain ⟨-, -, -, -, -, -, -, h8, -, -⟩ := hfields 0 hpos
    simpa using h8
  · intro j hj0 hjlt
    obtain ⟨-, -, -, -, -, -, -, h8, -, -⟩ := hfields j hjlt
    have hb : (j == 0) = false := beq_eq_false_iff_ne.mpr (by omega)
    rw [hb] at h8
    simpa using h8

/-- C1 witness: the spec's scenario `C = 1000`, `N = 2500`: the call completes
with `⌈2500/1000⌉ = 3` passes. -/
theorem claim_C1_witness :
    (NoteRenderPass.draw
        (NoteRenderPass.mk (BufferSet.mk [Buf.mk 0 1000, Buf.mk 1000 1000] 0) (1, 1) [])
        3 (1, 1) [] 0 (contractProducer 2500 1000) (fun _ => true) (Format.surface 0)).isOk
      = true ∧
    (NoteRenderPass.draw
        (NoteRenderPass.mk (BufferSet.mk [Buf.mk 0 1000, Buf.mk 1000 1000] 0) (1, 1) [])
        3 (1, 1) [] 0 (contractProducer 2500 1000) (fun _ => true)
        (Format.surface 0)).passesOf.length = (2500 + 1000 - 1) / 1000 :=
  ⟨(claim_C1 (NoteRenderPass.mk (BufferSet.mk [Buf.mk 0 1000, Buf.mk 1000 1000] 0) (1, 1) [])
      2500 1000 3 (1, 1) [] 0 (fun _ => true) (Format.surface 0)
      (by decide) (by decide) (by decide)).1,
    (claim_C1 (NoteRenderPass.mk (BufferSet.mk [Buf.mk 0 1000, Buf.mk 1000 1000] 0) (1, 1) [])
      2500 1000 3 (1, 1) [] 0 (fun _ => true) (Format.surface 0)
      (by decide) (by decide) (by decide)).2.2.1 (by decide)⟩
